import Mathlib

/-!
Verification of go-env-validator (njchilds90/go-env-validator).

This file embeds the library's data model and operations in Lean 4 and proves
the specification claims about them.

Embedded source files:
* validator.go : `New`, `ValidateMap` (the per-field evaluation loop),
  `parseValue`, `DurationResult`.
* types.go : `Field`, `FieldSchema`, `ValidationError`, `ValidationErrors`
  (with their `Error` renderings), `Result` and its typed getters plus `Raw`.
* schema.go : `Schema`.

Modelling conventions:
* Go's `Kind` is a string type; it is embedded as `String` with the six
  constant values spelled out where the source switches on them.
* Go maps (`map[string]string`, `map[string]any`) are embedded as association
  lists; `map[string]any` assignment overwrites the binding for an existing
  key, exactly as a Go map assignment does.
* A Go `nil` slice for `Field.AllowedValues` is `Option.none`; a non-nil slice
  is `Option.some`.  (`len(xs) > 0` treats `nil` and empty alike, while
  `Schema` distinguishes `nil` from empty, so the distinction is kept.)
* `panic` in the `Result` getters is embedded as `Except.error` carrying the
  panic message; returning normally is `Except.ok`.
* `context.Context` cancellation is embedded as a `Bool` that is `true` when
  the context is already cancelled at call time (the only situation the spec
  claims speak about).
* `float64` values: no claim depends on floating-point arithmetic, only on
  whether `strconv.ParseFloat` accepts the string, so a parsed float is
  represented by its (trimmed) accepted literal.
* Standard-library parsers (`strconv.ParseInt`, `strconv.ParseFloat`,
  `time.ParseDuration`, `net/url.ParseRequestURI`) are modelled from their Go
  definitions restricted to the fragments this library's claims exercise; each
  model documents its scope at its definition.
* All helper functions recurse structurally (or on explicit fuel) over
  `List Char`, so every definition evaluates by kernel reduction.
-/

/-- ASCII whitespace test, modelling the characters `strings.TrimSpace` strips
for the inputs exercised here (Go also strips other Unicode space runes;
no claim involves them). -/
def isSpaceB (c : Char) : Bool :=
  c = ' ' || c = '\t' || c = '\n' || c = '\r'

/-- Model of `strings.TrimSpace`: drop leading and trailing whitespace. -/
def trimSpace (s : String) : String :=
  String.mk (((s.data.dropWhile isSpaceB).reverse.dropWhile isSpaceB).reverse)

/-- ASCII lower-casing of one character (Go's `strings.ToLower` also maps
non-ASCII letters; no claim involves them). -/
def lowerChar (c : Char) : Char :=
  if 'A' ≤ c && c ≤ 'Z' then Char.ofNat (c.toNat + 32) else c

/-- Model of `strings.ToLower` (ASCII fragment). -/
def lowerStr (s : String) : String :=
  String.mk (s.data.map lowerChar)

/-- One character of Go's `%q` quoting (`strconv.Quote`): escape the quote,
backslash and common control characters; other printable characters are kept
verbatim (Go additionally escapes rare control/non-graphic runes; no claim
involves them). -/
def goQuoteChar (c : Char) : String :=
  if c = '"' then "\\\""
  else if c = '\\' then "\\\\"
  else if c = '\n' then "\\n"
  else if c = '\t' then "\\t"
  else if c = '\r' then "\\r"
  else String.singleton c

/-- Model of `fmt`'s `%q` verb on a string. -/
def goQuote (s : String) : String :=
  "\"" ++ String.join (s.data.map goQuoteChar) ++ "\""

/-- Decimal digits to a natural number (most significant first). -/
def digitsToNat (ds : List Char) : Nat :=
  ds.foldl (fun a c => a * 10 + (c.toNat - 48)) 0

/-- Model of `strconv.ParseInt(s, 10, 64)`: an optional single sign followed
by at least one ASCII digit, value within the signed 64-bit range; `none` is
Go's error return. -/
def parseInt64 (s : String) : Option Int :=
  let cs := s.data
  let (sign, ds) :=
    match cs with
    | '-' :: r => ((-1 : Int), r)
    | '+' :: r => ((1 : Int), r)
    | _ => ((1 : Int), cs)
  if ds.isEmpty then none
  else if ds.all Char.isDigit then
    let v : Int := sign * (digitsToNat ds : Int)
    if v < -(2 ^ 63) || v > 2 ^ 63 - 1 then none else some v
  else none

/-- Exponent part of a decimal float literal: empty, or `e`/`E`, an optional
sign, and at least one digit. -/
def validExp : List Char → Bool
  | [] => true
  | c :: rest =>
    if c = 'e' || c = 'E' then
      let rest2 :=
        match rest with
        | s :: r => if s = '+' || s = '-' then r else s :: r
        | [] => []
      !rest2.isEmpty && rest2.all Char.isDigit
    else false

/-- Decimal mantissa with optional fraction and exponent; at least one digit
must appear in the mantissa. -/
def validFloatCore (cs : List Char) : Bool :=
  let d1 := cs.takeWhile Char.isDigit
  let r1 := cs.dropWhile Char.isDigit
  match r1 with
  | '.' :: rest =>
    let d2 := rest.takeWhile Char.isDigit
    let r2 := rest.dropWhile Char.isDigit
    (!d1.isEmpty || !d2.isEmpty) && validExp r2
  | r1' => !d1.isEmpty && validExp r1'

/-- Model of `strconv.ParseFloat(s, 64)` acceptance: an optional sign followed
by `inf`/`infinity`/`nan` (any case) or a decimal literal with optional
fraction and exponent.  (Go additionally accepts hexadecimal float literals
and digit-separating underscores; no claim involves them.) -/
def validFloat (s : String) : Bool :=
  let cs :=
    match s.data with
    | c :: r => if c = '+' || c = '-' then r else c :: r
    | [] => []
  let ls := String.mk (cs.map lowerChar)
  if ls = "inf" || ls = "infinity" || ls = "nan" then true
  else validFloatCore cs

/-- Nanoseconds per duration unit, from `time.ParseDuration`'s `unitMap`. -/
def unitNs (u : String) : Option Nat :=
  if u = "ns" then some 1
  else if u = "us" || u = "µs" || u = "μs" then some 1000
  else if u = "ms" then some 1000000
  else if u = "s" then some 1000000000
  else if u = "m" then some 60000000000
  else if u = "h" then some 3600000000000
  else none

/-- Component loop of `time.ParseDuration`: each component is digits, an
optional `.` fraction, and a unit.  `acc` accumulates nanoseconds.  The fuel
argument only bounds recursion; each successful step consumes at least one
character, so `length + 1` fuel always suffices.  The fractional contribution
is computed with exact natural division where Go uses `float64` arithmetic; no
claim involves fractional durations. -/
def parseDurComponents : Nat → List Char → Nat → Option Nat
  | 0, _, _ => none
  | _ + 1, [], acc => some acc
  | fuel + 1, c :: cs, acc =>
    let all := c :: cs
    let d1 := all.takeWhile Char.isDigit
    let r1 := all.dropWhile Char.isDigit
    let hasDot := match r1 with | '.' :: _ => true | _ => false
    let fr := if hasDot then r1.tail else []
    let d2 := if hasDot then fr.takeWhile Char.isDigit else []
    let r2 := if hasDot then fr.dropWhile Char.isDigit else r1
    if d1.isEmpty && d2.isEmpty then none
    else
      let ucs := r2.takeWhile (fun c => !(c.isDigit || c = '.'))
      let rest := r2.dropWhile (fun c => !(c.isDigit || c = '.'))
      match unitNs (String.mk ucs) with
      | none => none
      | some u =>
        parseDurComponents fuel rest (acc + digitsToNat d1 * u + digitsToNat d2 * u / 10 ^ d2.length)

/-- Model of `time.ParseDuration`: optional sign, then `0` or a non-empty
sequence of number-unit components; the result is in nanoseconds.  Go rejects
any magnitude that overflows `int64` (checking each intermediate step; since
all contributions are non-negative, bounding the final sum is equivalent). -/
def parseDuration (s : String) : Option Int :=
  let cs := s.data
  let (neg, cs2) :=
    match cs with
    | '-' :: r => (true, r)
    | '+' :: r => (false, r)
    | _ => (false, cs)
  if String.mk cs2 = "0" then some 0
  else if cs2.isEmpty then none
  else
    match parseDurComponents (cs2.length + 1) cs2 0 with
    | none => none
    | some total =>
      if total ≤ 2 ^ 63 - 1 then some (if neg then -(total : Int) else (total : Int)) else none

/-! ### Model of `net/url.ParseRequestURI`

`parseValue`'s `url` case calls `url.ParseRequestURI` and then inspects only
`u.Scheme` and `u.Host`, so the model extracts exactly those two components,
following `net/url.parse(rawURL, viaRequest=true)`:

* control bytes anywhere, the empty string, and `:` as the first character are
  errors;
* the scheme is a leading letter followed by letters/digits/`+`/`-`/`.` and
  terminated by `:`; it is lower-cased; anything else means "no scheme";
* the query (everything from the first `?`) is split off;
* a remainder that does not start with `/` is opaque (empty host) when a
  scheme is present, and an error otherwise (`invalid URI for request`);
* with a scheme and a `//` prefix, the authority runs to the next `/`;
  everything after the last `@` is the host, which keeps its port and must
  have a valid optional port and valid percent-escapes; the userinfo before
  the `@` must consist of valid userinfo characters;
* percent-escapes in the path must be valid.

Omitted Go details, none exercised by a claim: percent-decoding of the host
(the model keeps it verbatim; decoding never turns a non-empty host empty),
IPv6 zone handling beyond bracket/port structure, and the rejection of
percent-escaped host bytes that `shouldEscape` would allow raw.
-/

/-- Hexadecimal digit test (for percent-escapes). -/
def isHexDigit (c : Char) : Bool :=
  c.isDigit || ('a' ≤ c && c ≤ 'f') || ('A' ≤ c && c ≤ 'F')

/-- Every `%` is followed by two hexadecimal digits. -/
def validPercents : List Char → Bool
  | [] => true
  | '%' :: a :: b :: rest => isHexDigit a && isHexDigit b && validPercents rest
  | '%' :: _ => false
  | _ :: rest => validPercents rest

/-- Characters `net/url.validUserinfo` accepts (the apostrophe is written by
code point). -/
def validUserinfoChar (c : Char) : Bool :=
  c.isAlphanum || c = '-' || c = '.' || c = '_' || c = ':' || c = '~' || c = '!' ||
    c = '$' || c = '&' || c.toNat = 39 || c = '(' || c = ')' || c = '*' || c = '+' ||
    c = ',' || c = ';' || c = '=' || c = '%' || c = '@'

/-- Split a character list at the last occurrence of `c`:
`some (before, after)` with `cs = before ++ [c] ++ after`, or `none` when `c`
does not occur. -/
def splitAtLast (c : Char) (cs : List Char) : Option (List Char × List Char) :=
  let r := cs.reverse
  let afterRev := r.takeWhile (fun x => !(x == c))
  if afterRev.length = r.length then none
  else some (cs.take (cs.length - afterRev.length - 1), afterRev.reverse)

/-- `net/url.getScheme`: scan for a scheme terminated by `:`.  `none` is the
`missing protocol scheme` error (`:` before any scheme character); otherwise
`some (scheme, rest)`, with `scheme = ""` and `rest` the whole input when no
scheme is present.  `orig` is the unconsumed original input, `acc` the scheme
characters read so far (reversed). -/
def schemeSplitAux (orig : String) : List Char → List Char → Option (String × String)
  | [], _ => some ("", orig)
  | c :: rest, acc =>
    if c.isAlpha then schemeSplitAux orig rest (c :: acc)
    else if c.isDigit || c = '+' || c = '-' || c = '.' then
      if acc.isEmpty then some ("", orig) else schemeSplitAux orig rest (c :: acc)
    else if c = ':' then
      if acc.isEmpty then none else some (String.mk acc.reverse, String.mk rest)
    else some ("", orig)

/-- `net/url.parseHost`: validate a host (which keeps its port).  `none` is an
error; `some h` returns the host string. -/
def parseHost (h : List Char) : Option String :=
  if !validPercents h then none
  else
    match h with
    | '[' :: _ =>
      match splitAtLast ']' h with
      | none => none
      | some (_, port) =>
        match port with
        | [] => some (String.mk h)
        | ':' :: p => if p.all Char.isDigit then some (String.mk h) else none
        | _ => none
    | _ =>
      match splitAtLast ':' h with
      | some (_, port) => if port.all Char.isDigit then some (String.mk h) else none
      | none => some (String.mk h)

/-- `net/url.parseAuthority` restricted to the host result: drop a userinfo
segment at the last `@` (validating its characters) and validate the host. -/
def parseAuthorityHost (authority : List Char) : Option String :=
  match splitAtLast '@' authority with
  | none => parseHost authority
  | some (userinfo, hostPart) =>
    if userinfo.all validUserinfoChar then parseHost hostPart else none

/-- `true` when the list starts with `//`. -/
def hasDoubleSlash : List Char → Bool
  | '/' :: '/' :: _ => true
  | _ => false

/-- Scheme and host of a parsed URL; the only components the library reads. -/
structure GoURL where
  scheme : String
  host : String
deriving DecidableEq

/-- Model of `net/url.ParseRequestURI` (see the section comment above).
`none` is Go's error return. -/
def parseRequestURI (s : String) : Option GoURL :=
  if s.data.any (fun c => c.toNat < 32 || c.toNat = 127) then none
  else if s = "" then none
  else if s = "*" then some ⟨"", ""⟩
  else
    match schemeSplitAux s s.data [] with
    | none => none
    | some (scheme0, rest0) =>
      let scheme := lowerStr scheme0
      let rcs := rest0.data.takeWhile (fun c => !(c == '?'))
      match rcs with
      | '/' :: _ =>
        if !(scheme == "") && hasDoubleSlash rcs then
          let afterSS := rcs.drop 2
          let authority := afterSS.takeWhile (fun c => !(c == '/'))
          let path := afterSS.dropWhile (fun c => !(c == '/'))
          match parseAuthorityHost authority with
          | none => none
          | some host => if validPercents path then some ⟨scheme, host⟩ else none
        else if validPercents rcs then some ⟨scheme, ""⟩
        else none
      | _ =>
        if !(scheme == "") then some ⟨scheme, ""⟩
        else none

/-! ### Data model (types.go)

The repository's package is `envvalidator`; its declarations live in the
`EnvValidator` namespace (`Field` would otherwise collide with Mathlib's
algebraic `Field`, and the `Result` getters with the core types they are named
after: Go's `Result.String`/`Integer`/`Float`/`Boolean`/`Duration` appear here
as `Result.getString` and so on).
-/

namespace EnvValidator

/-- `Field` (types.go): one declared environment variable.  `AllowedValues`
distinguishes Go's `nil` slice (`none`) from a non-nil slice (`some`). -/
structure Field where
  Key : String
  Kind : String
  Required : Bool
  Default : String
  Description : String
  AllowedValues : Option (List String)
deriving DecidableEq

/-- The `Field.AllowedValues` slice as a list (`nil` and empty coincide for
`len` and iteration). -/
def Field.allowedList (f : Field) : List String :=
  f.AllowedValues.getD []

/-- `FieldSchema` (types.go): the JSON-safe descriptor `Schema` produces.
`AllowedValues` is a plain list because `Schema` always assigns a non-nil
slice. -/
structure FieldSchema where
  Key : String
  Kind : String
  Required : Bool
  Default : String
  Description : String
  AllowedValues : List String
deriving DecidableEq

/-- `ValidationError` (types.go). -/
structure ValidationError where
  Key : String
  Reason : String
deriving DecidableEq

/-- `(*ValidationError).Error` (types.go):
`fmt.Sprintf("env-validator: field %q: %s", e.Key, e.Reason)`. -/
def ValidationError.Error (e : ValidationError) : String :=
  "env-validator: field " ++ goQuote e.Key ++ ": " ++ e.Reason

/-- `ValidationErrors` (types.go), a slice of per-field errors. -/
abbrev ValidationErrors := List ValidationError

/-- `ValidationErrors.Error` (types.go): empty slice renders as `""`;
otherwise a count header followed by one `  - ` line per error. -/
def ValidationErrors.Error (ve : ValidationErrors) : String :=
  if ve.length = 0 then ""
  else
    ve.foldl (fun out e => out ++ ("  - " ++ e.Error ++ "\n"))
      (Nat.repr ve.length ++ " environment variable validation error(s):\n")

/-- The dynamically-typed values a `Result` stores (`map[string]any`).  A
float is carried as its accepted literal (see the header comment); a duration
is `time.Duration`, i.e. nanoseconds in an `int64`. -/
inductive Value where
  | str (s : String)
  | int (n : Int)
  | float (lit : String)
  | bool (b : Bool)
  | duration (ns : Int)
deriving DecidableEq

deriving instance DecidableEq for Except

/-- The input map `map[string]string`, as an association list with unique
keys. -/
abbrev EnvMap := List (String × String)

/-- Go map read `env[k]` (presence-aware form). -/
def EnvMap.get : EnvMap → String → Option String
  | [], _ => none
  | (k, v) :: rest, key => if key = k then some v else EnvMap.get rest key

/-- The `Result`'s internal `map[string]any`, as an association list. -/
abbrev ValuesMap := List (String × Value)

/-- Go map read `values[k]`. -/
def ValuesMap.get : ValuesMap → String → Option Value
  | [], _ => none
  | (k, v) :: rest, key => if key = k then some v else ValuesMap.get rest key

/-- Go map assignment `values[k] = v`: overwrite the binding for `k` if it
exists, otherwise add it. -/
def ValuesMap.insert : ValuesMap → String → Value → ValuesMap
  | [], k, v => [(k, v)]
  | (k', v') :: rest, k, v =>
    if k' = k then (k, v) :: rest else (k', v') :: ValuesMap.insert rest k v

/-- `Result` (types.go). -/
structure Result where
  values : ValuesMap
deriving DecidableEq

/-! ### parseValue and the evaluation loop (validator.go) -/

/-- `strings.Join(xs, ", ")`. -/
def joinComma : List String → String
  | [] => ""
  | x :: xs => xs.foldl (fun a s => a ++ ", " ++ s) x

/-- `parseValue` (validator.go): convert a raw string into the value for
`kind`; `Except.error` is the `*ValidationError` return. -/
def parseValue (key : String) (kind : String) (raw : String) : Except ValidationError Value :=
  if kind = "string" then .ok (.str raw)
  else if kind = "integer" then
    match parseInt64 (trimSpace raw) with
    | some n => .ok (.int n)
    | none => .error ⟨key, "cannot parse " ++ goQuote raw ++ " as an integer"⟩
  else if kind = "float" then
    if validFloat (trimSpace raw) then .ok (.float (trimSpace raw))
    else .error ⟨key, "cannot parse " ++ goQuote raw ++ " as a float"⟩
  else if kind = "boolean" then
    let normalized := lowerStr (trimSpace raw)
    if normalized = "true" || normalized = "1" || normalized = "yes" then .ok (.bool true)
    else if normalized = "false" || normalized = "0" || normalized = "no" then .ok (.bool false)
    else .error ⟨key, "cannot parse " ++ goQuote raw ++ " as a boolean; accepted values are true, false, 1, 0, yes, no"⟩
  else if kind = "url" then
    match parseRequestURI (trimSpace raw) with
    | some u =>
      if u.scheme = "" || u.host = "" then
        .error ⟨key, "cannot parse " ++ goQuote raw ++ " as an absolute URL with scheme and host"⟩
      else .ok (.str (trimSpace raw))
    | none => .error ⟨key, "cannot parse " ++ goQuote raw ++ " as an absolute URL with scheme and host"⟩
  else if kind = "duration" then
    match parseDuration (trimSpace raw) with
    | some d => .ok (.duration d)
    | none => .error ⟨key, "cannot parse " ++ goQuote raw ++ " as a duration; use Go duration syntax such as 5s, 1m30s, or 2h"⟩
  else .error ⟨key, "unknown kind " ++ goQuote kind⟩

/-- The tail of one iteration of `ValidateMap`'s loop after the raw value has
been resolved: the allowed-values check followed by `parseValue`.  (`kind`
resolution happens at the top of the loop body in the source; it is pure, so
computing it here is equivalent.) -/
def afterRaw (f : Field) (raw : String) : Except ValidationError Value :=
  let kind := if f.Kind = "" then "string" else f.Kind
  if f.allowedList.length > 0 && !(f.allowedList.contains raw) then
    .error ⟨f.Key, "value " ++ goQuote raw ++ " is not one of the allowed values: " ++ joinComma f.allowedList⟩
  else parseValue f.Key kind raw

/-- One iteration of `ValidateMap`'s loop body for field `f` (everything
between the cancellation check and the `values[f.Key] = parsed` store):
`raw, present := env[f.Key]` gives `raw = ""` exactly when the key is absent
or maps to `""` (a missing Go map read yields the zero value `""`), so the
source's `!present || raw == ""` test is `raw0 = ""` below. -/
def evalField (f : Field) (env : EnvMap) : Except ValidationError Value :=
  let raw0 := (EnvMap.get env f.Key).getD ""
  if raw0 = "" then
    if f.Required && f.Default = "" then
      .error ⟨f.Key, "required variable is missing or empty"⟩
    else afterRaw f f.Default
  else afterRaw f raw0

/-- `ValidateMap`'s loop (validator.go): walk the declarations in order,
checking the cancellation signal before each field, accumulating `values` and
`errs`.  `none` is the `return nil, ctx.Err()` abort. -/
def runFields (cancelled : Bool) (env : EnvMap) :
    List Field → ValuesMap → List ValidationError → Option (ValuesMap × List ValidationError)
  | [], values, errs => some (values, errs)
  | f :: rest, values, errs =>
    if cancelled then none
    else
      match evalField f env with
      | .error e => runFields cancelled env rest values (errs ++ [e])
      | .ok v => runFields cancelled env rest (ValuesMap.insert values f.Key v) errs

/-- The `error` result of `ValidateMap`: either the cancellation error
`ctx.Err()` or a `ValidationErrors` batch. -/
inductive GoErr where
  | cancelErr
  | batch (errs : List ValidationError)
deriving DecidableEq

/-- `ValidateMap` (validator.go).  The pair mirrors Go's
`(*Result, error)` return: `(nil, ctx.Err())` on cancellation,
`(nil, errs)` when `len(errs) > 0`, `(&Result{values}, nil)` otherwise. -/
def ValidateMap (cancelled : Bool) (fields : List Field) (env : EnvMap) :
    Option Result × Option GoErr :=
  match runFields cancelled env fields [] [] with
  | none => (none, some .cancelErr)
  | some (values, errs) =>
    if errs.length > 0 then (none, some (.batch errs)) else (some ⟨values⟩, none)

/-! ### Result accessors (types.go, validator.go) -/

/-- `(*Result).String` (types.go): panic (modelled as `Except.error` carrying
the panic message) on an undeclared key or a non-string stored value. -/
def Result.getString (r : Result) (key : String) : Except String String :=
  match ValuesMap.get r.values key with
  | none => .error ("env-validator: key " ++ goQuote key ++ " was not declared in the validator")
  | some (.str s) => .ok s
  | some _ => .error ("env-validator: key " ++ goQuote key ++ " is not a string field")

/-- `(*Result).Integer` (types.go). -/
def Result.getInteger (r : Result) (key : String) : Except String Int :=
  match ValuesMap.get r.values key with
  | none => .error ("env-validator: key " ++ goQuote key ++ " was not declared in the validator")
  | some (.int n) => .ok n
  | some _ => .error ("env-validator: key " ++ goQuote key ++ " is not an integer field")

/-- `(*Result).Float` (types.go); the float is returned as its literal (see
the header comment). -/
def Result.getFloat (r : Result) (key : String) : Except String String :=
  match ValuesMap.get r.values key with
  | none => .error ("env-validator: key " ++ goQuote key ++ " was not declared in the validator")
  | some (.float l) => .ok l
  | some _ => .error ("env-validator: key " ++ goQuote key ++ " is not a float field")

/-- `(*Result).Boolean` (types.go). -/
def Result.getBoolean (r : Result) (key : String) : Except String Bool :=
  match ValuesMap.get r.values key with
  | none => .error ("env-validator: key " ++ goQuote key ++ " was not declared in the validator")
  | some (.bool b) => .ok b
  | some _ => .error ("env-validator: key " ++ goQuote key ++ " is not a boolean field")

/-- `(*Result).Duration` (types.go): the source returns the stored value as
`interface{}` after only the declared-key check — there is no type assertion
in its body, although its own GoDoc says it also panics when the field kind is
not `KindDuration`. -/
def Result.getDuration (r : Result) (key : String) : Except String Value :=
  match ValuesMap.get r.values key with
  | none => .error ("env-validator: key " ++ goQuote key ++ " was not declared in the validator")
  | some v => .ok v

/-- `(*Result).Raw` (types.go): the untyped accessor, value plus presence
flag, with no failure path. -/
def Result.Raw (r : Result) (key : String) : Option Value × Bool :=
  (ValuesMap.get r.values key, (ValuesMap.get r.values key).isSome)

/-- `DurationResult` (validator.go): `Raw` plus the declared-key panic and the
`time.Duration` type-assertion panic. -/
def DurationResult (r : Result) (key : String) : Except String Int :=
  match (Result.Raw r key).1 with
  | none => .error ("env-validator: key " ++ goQuote key ++ " was not declared in the validator")
  | some (.duration d) => .ok d
  | some _ => .error ("env-validator: key " ++ goQuote key ++ " is not a duration field")

/-! ### Schema (schema.go) -/

/-- The descriptor `Schema` builds for one declaration (the body of its
loop): kind defaulted to `string`, `nil` allowed-values replaced by the empty
slice. -/
def schemaOf (f : Field) : FieldSchema :=
  { Key := f.Key
    Kind := if f.Kind = "" then "string" else f.Kind
    Required := f.Required
    Default := f.Default
    Description := f.Description
    AllowedValues := match f.AllowedValues with | none => [] | some l => l }

/-- `Schema` (schema.go): `out[i] = schemaOf fields[i]`, i.e. `List.map`.  The
function takes only the declarations — mirroring the Go method, which reads
`v.fields` and nothing else (in particular no input map). -/
def Schema (fields : List Field) : List FieldSchema :=
  fields.map schemaOf

end EnvValidator

namespace EnvValidator

/-! ### Derived views of the evaluation pass, used to state the claims -/

/-- The error contributed by field `f` (if any): `evalField`'s error. -/
def fieldErrOf (f : Field) (env : EnvMap) : Option ValidationError :=
  match evalField f env with
  | .error e => some e
  | .ok _ => none

/-- The batch an uncancelled pass accumulates: one entry per failing
declaration, in declaration order. -/
def allErrs (fields : List Field) (env : EnvMap) : List ValidationError :=
  fields.filterMap (fun f => fieldErrOf f env)

/-- The `values` update one iteration performs: store the parsed value under
the field's key on success, leave the map unchanged on failure. -/
def stepVal (env : EnvMap) (acc : ValuesMap) (f : Field) : ValuesMap :=
  match evalField f env with
  | .ok v => ValuesMap.insert acc f.Key v
  | .error _ => acc

/-- The values map an uncancelled pass accumulates: each succeeding
declaration stores its parsed value under its key (a later duplicate key
overwrites an earlier one, as the Go map assignment does). -/
def allVals (fields : List Field) (env : EnvMap) : ValuesMap :=
  fields.foldl (stepVal env) []

/-! ### State-threaded evaluation (for the frame claims)

Go passes `v.fields` (a slice) and `env` (a map) by reference into
`ValidateMap`; mutation would have to appear as an assignment through them.
The loop body contains only reads (`range v.fields`, `env[f.Key]`) and writes
to the call-local `values` and `errs`, so the state-threaded embedding below
returns the declaration list and the input map exactly as each iteration
received them; proving the final state equal to the initial one formalises
that a call leaves both untouched. -/

/-- `ValidateMap`'s loop with the declaration list and input map threaded
through every iteration.  The first component reconstructs the state of
`(fields, env)` after the pass; the second is the loop's outcome. -/
def runFieldsSt (cancelled : Bool) :
    List Field → EnvMap → ValuesMap → List ValidationError →
      (List Field × EnvMap) × Option (ValuesMap × List ValidationError)
  | [], env, values, errs => (([], env), some (values, errs))
  | f :: rest, env, values, errs =>
    if cancelled then ((f :: rest, env), none)
    else
      match evalField f env with
      | .error e =>
        let ((rest2, env2), out) := runFieldsSt cancelled rest env values (errs ++ [e])
        ((f :: rest2, env2), out)
      | .ok v =>
        let ((rest2, env2), out) := runFieldsSt cancelled rest env (ValuesMap.insert values f.Key v) errs
        ((f :: rest2, env2), out)

/-- `ValidateMap` with the `(fields, env)` state threaded through. -/
def ValidateMapSt (cancelled : Bool) (fields : List Field) (env : EnvMap) :
    (List Field × EnvMap) × (Option Result × Option GoErr) :=
  match runFieldsSt cancelled fields env [] [] with
  | (st, none) => (st, (none, some .cancelErr))
  | (st, some (values, errs)) =>
    (st, if errs.length > 0 then (none, some (.batch errs)) else (some ⟨values⟩, none))

/-- `Schema`'s loop with the declaration list threaded through: each
iteration only reads its field. -/
def SchemaSt : List Field → List Field × List FieldSchema
  | [] => ([], [])
  | f :: rest =>
    let (rest2, out) := SchemaSt rest
    (f :: rest2, schemaOf f :: out)

end EnvValidator

/-! ### Line-level view of a rendered error batch (for the rendering claim) -/

/-- Split a character list at every newline (the final, possibly empty,
segment included). -/
def splitLinesCL : List Char → List (List Char)
  | [] => [[]]
  | '\n' :: rest => [] :: splitLinesCL rest
  | c :: rest =>
    match splitLinesCL rest with
    | l :: ls => (c :: l) :: ls
    | [] => [[c]]

/-! ## Supporting lemmas -/

namespace EnvValidator

/-- `ValuesMap.insert` followed by `get`: the inserted key reads back the new
value, every other key is unaffected. -/
theorem get_insert (m : ValuesMap) (k : String) (v : Value) (k' : String) :
    ValuesMap.get (ValuesMap.insert m k v) k' = if k' = k then some v else ValuesMap.get m k' := by
  induction m with
  | nil =>
    simp only [ValuesMap.insert, ValuesMap.get]
  | cons hd tl ih =>
    obtain ⟨a, b⟩ := hd
    by_cases hak : a = k <;> by_cases h1 : k' = a <;>
      simp_all [ValuesMap.insert, ValuesMap.get]

/-- The uncancelled loop never aborts and accumulates exactly the per-field
values and errors. -/
theorem runFields_uncancelled (env : EnvMap) :
    ∀ (fields : List Field) (vs : ValuesMap) (es : List ValidationError),
      runFields false env fields vs es =
        some (List.foldl (stepVal env) vs fields, es ++ allErrs fields env) := by
  intro fields
  induction fields with
  | nil =>
    intro vs es
    simp [runFields, allErrs]
  | cons f rest ih =>
    intro vs es
    simp only [runFields, Bool.false_eq_true, if_false]
    cases h : evalField f env with
    | error e =>
      simp [ih, allErrs, List.filterMap_cons, fieldErrOf, h, stepVal]
    | ok v =>
      simp [ih, allErrs, List.filterMap_cons, fieldErrOf, h, stepVal]

/-- `ValidateMap` without cancellation, expressed through `allErrs` and
`allVals`. -/
theorem validateMap_false_eq (fields : List Field) (env : EnvMap) :
    ValidateMap false fields env =
      if (allErrs fields env).length > 0 then (none, some (.batch (allErrs fields env)))
      else (some ⟨allVals fields env⟩, none) := by
  simp [ValidateMap, runFields_uncancelled, allVals]

/-- On an all-successful pass, a key is present in the accumulated values map
exactly when some declaration carries it. -/
theorem foldl_stepVal_get (env : EnvMap) :
    ∀ (fields : List Field), allErrs fields env = [] →
      ∀ (vs : ValuesMap) (k : String),
        (ValuesMap.get (List.foldl (stepVal env) vs fields) k).isSome =
          ((ValuesMap.get vs k).isSome || fields.any (fun f => f.Key == k)) := by
  intro fields
  induction fields with
  | nil =>
    intro _ vs k
    simp
  | cons f rest ih =>
    intro h vs k
    have hcons : fieldErrOf f env = none ∧ allErrs rest env = [] := by
      cases hf : fieldErrOf f env with
      | none =>
        refine ⟨rfl, ?_⟩
        simpa [allErrs, List.filterMap_cons, hf] using h
      | some e =>
        simp [allErrs, List.filterMap_cons, hf] at h
    obtain ⟨hf, hrest⟩ := hcons
    cases hev : evalField f env with
    | error e => simp [fieldErrOf, hev] at hf
    | ok v =>
      simp only [List.foldl_cons, stepVal, hev, List.any_cons]
      rw [ih hrest]
      rw [get_insert]
      by_cases hk : k = f.Key
      · simp [hk]
      · have : ¬(f.Key == k) = true := by
          simp only [beq_iff_eq]
          exact fun h => hk (h ▸ rfl)
        simp [hk, this]

end EnvValidator

namespace EnvValidator

/-- C1: For every declaration list and every input map (with the context not
cancelled, the situation C4 covers separately), `ValidateMap` never returns
both a Result and an error; it returns a ValidationErrors batch exactly when
at least one declared field failed, and that batch is `allErrs` — the errors
of every declared field, so every declaration is evaluated regardless of
earlier failures; and when no field failed it returns a Result whose key set
is exactly the set of declared keys — no undeclared key present, no declared
key omitted — and never a partial Result. -/
theorem validateMap_contract (fields : List Field) (env : EnvMap) :
    (∀ r e, ValidateMap false fields env = (some r, some e) → False)
    ∧ (ValidateMap false fields env = (none, some (GoErr.batch (allErrs fields env))) ↔
        allErrs fields env ≠ [])
    ∧ (allErrs fields env = [] →
        ValidateMap false fields env = (some ⟨allVals fields env⟩, none)
        ∧ ∀ k, (ValuesMap.get (allVals fields env) k).isSome =
            fields.any (fun f => f.Key == k)) := by
  have hv := validateMap_false_eq fields env
  by_cases h : allErrs fields env = []
  · rw [h] at hv
    simp only [List.length_nil, gt_iff_lt, lt_self_iff_false, if_false] at hv
    refine ⟨?_, ?_, ?_⟩
    · intro r e heq
      rw [hv] at heq
      exact Option.noConfusion (congrArg Prod.snd heq)
    · constructor
      · intro heq
        rw [hv] at heq
        exact absurd (congrArg Prod.fst heq) (by simp)
      · intro hne
        exact absurd h hne
    · intro _
      refine ⟨hv, ?_⟩
      intro k
      have := foldl_stepVal_get env fields h [] k
      simpa [allVals, ValuesMap.get] using this
  · have hlen : (allErrs fields env).length > 0 := by
      cases he : allErrs fields env with
      | nil => exact absurd he h
      | cons a l => simp
    rw [if_pos hlen] at hv
    refine ⟨?_, ?_, ?_⟩
    · intro r e heq
      rw [hv] at heq
      exact Option.noConfusion (congrArg Prod.fst heq)
    · exact ⟨fun _ => h, fun _ => hv⟩
    · intro he
      exact absurd he h

/-- Witness for C1 at a concrete input: one string field and the empty map. -/
theorem validateMap_contract_witness :
    ValidateMap false [⟨"A", "string", false, "", "", none⟩] [] =
      (some ⟨[("A", Value.str "")]⟩, none) :=
  ((validateMap_contract [⟨"A", "string", false, "", "", none⟩] []).2.2 rfl).1

end EnvValidator

namespace EnvValidator

/-- C2: For every declared field, the raw value resolves as the claim states:
a present, non-empty input value is always used (overriding any default);
when the key is absent or maps to `""`, a required field with an empty
default contributes exactly the single failure
`"required variable is missing or empty"` and nothing else runs for it, and
in every other case — including required fields with a non-empty default —
the default string is substituted as the raw value and evaluation continues
with the remaining checks (`afterRaw`).  (`EnvMap.get env f.Key` with
`getD ""` is the Go read `raw, present := env[f.Key]`, which yields `""` for
an absent key, so the tested string is empty exactly when
`!present || raw == ""`.) -/
theorem evalField_raw_resolution (f : Field) (env : EnvMap) :
    ((EnvMap.get env f.Key).getD "" ≠ "" →
        evalField f env = afterRaw f ((EnvMap.get env f.Key).getD ""))
    ∧ ((EnvMap.get env f.Key).getD "" = "" → f.Required = true → f.Default = "" →
        evalField f env = .error ⟨f.Key, "required variable is missing or empty"⟩)
    ∧ ((EnvMap.get env f.Key).getD "" = "" → ¬(f.Required = true ∧ f.Default = "") →
        evalField f env = afterRaw f f.Default) := by
  refine ⟨?_, ?_, ?_⟩
  · intro hne
    simp [evalField, hne]
  · intro hmiss hreq hdef
    simp [evalField, hmiss, hreq, hdef]
  · intro hmiss hnot
    have hb : (f.Required && decide (f.Default = "")) = false := by
      cases hR : f.Required with
      | false => rfl
      | true =>
        by_cases hD : f.Default = ""
        · exact absurd ⟨hR, hD⟩ hnot
        · simp [hD]
    simp [evalField, hmiss, hb]

/-- Witness for C2 at the spec's own example: default `"8080"`, input
`"9090"` for an integer field — the provided value overrides the default and
the Result-bound value is `9090`. -/
theorem evalField_raw_resolution_witness :
    evalField ⟨"PORT", "integer", false, "8080", "", none⟩ [("PORT", "9090")] =
      .ok (Value.int 9090) := by
  have h := (evalField_raw_resolution ⟨"PORT", "integer", false, "8080", "", none⟩
    [("PORT", "9090")]).1 (by decide)
  rw [h]
  decide

end EnvValidator

namespace EnvValidator

/-- C3 (code bug): with two declarations sharing key `"K"` (defaults `"a"`
and `"b"`), the first declaration alone evaluates to `"a"`, yet the Result
stores `"b"` — the `values[f.Key] = parsed` store of the later declaration
overwrites the earlier one, so the LAST declaration wins, contradicting
`New`'s own doc comment ("the first declaration for a given key wins during
validation") and the claim. -/
theorem validateMap_duplicate_key_last_wins :
    evalField ⟨"K", "string", false, "a", "", none⟩ [] = .ok (Value.str "a")
    ∧ ValidateMap false
        [⟨"K", "string", false, "a", "", none⟩, ⟨"K", "string", false, "b", "", none⟩] [] =
        (some ⟨[("K", Value.str "b")]⟩, none) :=
  ⟨by decide, by decide⟩

/-- C4 counterexample: with an EMPTY declaration list, a pre-cancelled call
returns a Result (the cancellation check sits inside the per-field loop, which
never runs), so "never a Result" fails as stated. -/
theorem validateMap_precancelled_empty_returns_result :
    ValidateMap true [] [] = (some ⟨[]⟩, none) := by
  decide

/-- C4 as amended: for every NON-EMPTY declaration list and every input map,
a pre-cancelled call aborts before evaluating any field and returns the
cancellation error — never a Result, never a ValidationErrors batch, and no
per-field errors survive. -/
theorem validateMap_precancelled_aborts (fields : List Field) (env : EnvMap)
    (h : fields ≠ []) :
    ValidateMap true fields env = (none, some GoErr.cancelErr) := by
  cases fields with
  | nil => exact absurd rfl h
  | cons f rest => simp [ValidateMap, runFields]

/-- Witness for the amended C4 at a concrete input. -/
theorem validateMap_precancelled_aborts_witness :
    ValidateMap true [⟨"A", "string", false, "", "", none⟩] [] =
      (none, some GoErr.cancelErr) :=
  validateMap_precancelled_aborts [⟨"A", "string", false, "", "", none⟩] [] (by decide)

/-- C5 (code bug): validating a declared integer field stores an `int64`, and
calling the `Duration` getter on that non-duration key returns the stored
value instead of failing — `(*Result).Duration` performs no type assertion,
although its own GoDoc and the claim say it panics when the stored value is
not a duration.  (The other four getters and `DurationResult` do enforce both
conditions.) -/
theorem result_duration_no_kind_check :
    ValidateMap false [⟨"PORT", "integer", false, "8080", "", none⟩] [] =
        (some ⟨[("PORT", Value.int 8080)]⟩, none)
    ∧ Result.getDuration ⟨[("PORT", Value.int 8080)]⟩ "PORT" = .ok (Value.int 8080) :=
  ⟨by decide, by decide⟩

end EnvValidator


namespace EnvValidator

/-- C6: For every field of kind `url`, coercion first trims surrounding
whitespace and succeeds exactly when the trimmed value parses as an absolute
request URI with a non-empty scheme and a non-empty host; on success the
stored value is the trimmed original string (not a decomposed URL), and
otherwise a failure is recorded for the field. -/
theorem parseValue_url_contract (key raw : String) :
    ((parseValue key "url" raw).isOk = true ↔
      ∃ u : GoURL, parseRequestURI (trimSpace raw) = some u ∧ u.scheme ≠ "" ∧ u.host ≠ "")
    ∧ (∀ v, parseValue key "url" raw = .ok v → v = .str (trimSpace raw))
    ∧ ((parseValue key "url" raw).isOk = false →
        parseValue key "url" raw =
          .error ⟨key, "cannot parse " ++ goQuote raw ++ " as an absolute URL with scheme and host"⟩) := by
  cases h : parseRequestURI (trimSpace raw) with
  | none =>
    have he : parseValue key "url" raw =
        .error ⟨key, "cannot parse " ++ goQuote raw ++ " as an absolute URL with scheme and host"⟩ := by
      simp [parseValue, h]
    refine ⟨⟨?_, ?_⟩, ?_, ?_⟩
    · intro hok
      rw [he] at hok
      simp [Except.isOk, Except.toBool] at hok
    · rintro ⟨u, hu, -, -⟩
      exact Option.noConfusion hu
    · intro v hv
      rw [he] at hv
      exact Except.noConfusion hv
    · intro _
      exact he
  | some u =>
    by_cases hs : u.scheme = ""
    · have he : parseValue key "url" raw =
          .error ⟨key, "cannot parse " ++ goQuote raw ++ " as an absolute URL with scheme and host"⟩ := by
        simp [parseValue, h, hs]
      refine ⟨⟨?_, ?_⟩, ?_, ?_⟩
      · intro hok
        rw [he] at hok
        simp [Except.isOk, Except.toBool] at hok
      · rintro ⟨u', hu', hsc', -⟩
        cases hu'
        exact absurd hs hsc'
      · intro v hv
        rw [he] at hv
        exact Except.noConfusion hv
      · intro _
        exact he
    · by_cases hh : u.host = ""
      · have he : parseValue key "url" raw =
            .error ⟨key, "cannot parse " ++ goQuote raw ++ " as an absolute URL with scheme and host"⟩ := by
          simp [parseValue, h, hs, hh]
        refine ⟨⟨?_, ?_⟩, ?_, ?_⟩
        · intro hok
          rw [he] at hok
          simp [Except.isOk, Except.toBool] at hok
        · rintro ⟨u', hu', -, hhc'⟩
          cases hu'
          exact absurd hh hhc'
        · intro v hv
          rw [he] at hv
          exact Except.noConfusion hv
        · intro _
          exact he
      · have he : parseValue key "url" raw = .ok (.str (trimSpace raw)) := by
          simp [parseValue, h, hs, hh]
        refine ⟨⟨?_, ?_⟩, ?_, ?_⟩
        · intro _
          exact ⟨u, rfl, hs, hh⟩
        · intro _
          rw [he]
          simp [Except.isOk, Except.toBool]
        · intro v hv
          rw [he] at hv
          cases hv
          rfl
        · intro hok
          rw [he] at hok
          simp [Except.isOk, Except.toBool] at hok

/-- Witness for C6 at the spec's examples: `https://api.example.com`
(with surrounding whitespace) succeeds and stores the trimmed original
string; `not-a-url` fails with the url coercion error. -/
theorem parseValue_url_contract_witness :
    parseValue "K" "url" " https://api.example.com " = .ok (Value.str "https://api.example.com")
    ∧ parseValue "K" "url" "not-a-url" =
        .error ⟨"K", "cannot parse \"not-a-url\" as an absolute URL with scheme and host"⟩ := by
  constructor
  · have h1 : (parseValue "K" "url" " https://api.example.com ").isOk = true :=
      (parseValue_url_contract "K" " https://api.example.com ").1.mpr
        ⟨⟨"https", "api.example.com"⟩, by decide, by decide, by decide⟩
    cases hv : parseValue "K" "url" " https://api.example.com " with
    | error e =>
      rw [hv] at h1
      simp [Except.isOk, Except.toBool] at h1
    | ok v =>
      have hvv := (parseValue_url_contract "K" " https://api.example.com ").2.1 v hv
      rw [hvv]
      decide
  · have h2 : (parseValue "K" "url" "not-a-url").isOk = false := by decide
    have he := (parseValue_url_contract "K" "not-a-url").2.2 h2
    rw [he]
    decide

end EnvValidator

namespace EnvValidator

/-- C7: `Schema` returns one descriptor per declaration, in declaration
order, carrying the declaration's key, kind (an empty kind replaced by
`string`), required flag, default, description, and allowed-values normalized
to an empty list when none were declared.  The function's only input is the
declaration list — mirroring the Go method, which reads nothing but
`v.fields` — so the output never depends on an input map, never fails, and
two calls with the same declarations agree definitionally. -/
theorem schema_contract (fields : List Field) :
    (Schema fields).length = fields.length
    ∧ ∀ i : Nat,
        (Schema fields)[i]? =
          Option.map
            (fun f =>
              ({ Key := f.Key
                 Kind := if f.Kind = "" then "string" else f.Kind
                 Required := f.Required
                 Default := f.Default
                 Description := f.Description
                 AllowedValues := f.AllowedValues.getD [] } : FieldSchema))
            fields[i]? := by
  constructor
  · simp [Schema]
  · intro i
    have hmatch : ∀ f : Field,
        schemaOf f =
          { Key := f.Key
            Kind := if f.Kind = "" then "string" else f.Kind
            Required := f.Required
            Default := f.Default
            Description := f.Description
            AllowedValues := f.AllowedValues.getD [] } := by
      intro f
      cases hA : f.AllowedValues <;> simp [schemaOf, hA, Option.getD]
    rw [Schema, List.getElem?_map]
    cases fields[i]? with
    | none => rfl
    | some f => simp [hmatch f]

end EnvValidator

/-- Pulling a leading append out of a string `foldl`. -/
theorem strFoldl_pull (xs : List String) :
    ∀ a b : String, xs.foldl (· ++ ·) (a ++ b) = a ++ xs.foldl (· ++ ·) b := by
  induction xs with
  | nil => intro a b; rfl
  | cons x xs ih =>
    intro a b
    simp only [List.foldl_cons]
    rw [String.append_assoc, ih]

/-- `String.join` peels its first element. -/
theorem join_cons (x : String) (xs : List String) :
    String.join (x :: xs) = x ++ String.join xs := by
  have h0 : String.join (x :: xs) = xs.foldl (· ++ ·) ("" ++ x) := rfl
  rw [h0, String.empty_append]
  have h1 := strFoldl_pull xs x ""
  rw [String.append_empty] at h1
  exact h1.trans rfl

namespace EnvValidator

/-- Accumulating a string per element with `foldl` is the initial string
followed by the concatenation of the per-element strings. -/
theorem foldl_append_strings (g : ValidationError → String) :
    ∀ (l : List ValidationError) (init : String),
      l.foldl (fun out e => out ++ g e) init = init ++ String.join (l.map g) := by
  intro l
  induction l with
  | nil =>
    intro init
    show init = init ++ String.join []
    rw [String.join, List.foldl_nil, String.append_empty]
  | cons e rest ih =>
    intro init
    simp only [List.foldl_cons, List.map_cons, ih, join_cons]
    rw [String.append_assoc]

/-- C8 counterexample: rendering the one-element batch `[(A, r)]` produces
the header plus the line `  - env-validator: field "A": r` — and NO line of
the rendering, after stripping leading whitespace (the indentation), is
exactly `field "A": r`, because every error line carries the
`- env-validator: ` bullet prefix the claim omits. -/
theorem validationErrors_line_format_cex :
    ValidationErrors.Error [⟨"A", "r"⟩] =
      "1 environment variable validation error(s):\n  - env-validator: field \"A\": r\n"
    ∧ ((splitLinesCL (ValidationErrors.Error [⟨"A", "r"⟩]).data).all
        (fun l => !(String.mk (l.dropWhile isSpaceB) == "field \"A\": r"))) = true :=
  ⟨by decide, by decide⟩

/-- C8 as amended: for every non-empty batch, the rendering is the header
`N environment variable validation error(s):` followed by one line per
failure in batch order, each line being the two-space-indented bullet `- `
followed by `env-validator: field "<key>": <reason>` (the `ValidationError`
rendering), each line newline-terminated. -/
theorem validationErrors_render_format (errs : ValidationErrors) (h : errs ≠ []) :
    ValidationErrors.Error errs =
      Nat.repr errs.length ++ " environment variable validation error(s):\n" ++
        String.join (errs.map
          (fun e => "  - env-validator: field " ++ goQuote e.Key ++ ": " ++ e.Reason ++ "\n")) := by
  have hlen : ¬ errs.length = 0 := fun hl => h (List.length_eq_zero.mp hl)
  rw [ValidationErrors.Error, if_neg hlen]
  rw [foldl_append_strings (fun e => "  - " ++ e.Error ++ "\n") errs]
  have hfun : (fun e : ValidationError => "  - " ++ e.Error ++ "\n") =
      (fun e => "  - env-validator: field " ++ goQuote e.Key ++ ": " ++ e.Reason ++ "\n") := by
    funext e
    simp only [ValidationError.Error, ← String.append_assoc]
    congr 4
  rw [hfun]

/-- Witness for the amended C8 at a concrete two-element batch, in batch
order. -/
theorem validationErrors_render_format_witness :
    ValidationErrors.Error [⟨"A", "r"⟩, ⟨"B", "s"⟩] =
      "2 environment variable validation error(s):\n  - env-validator: field \"A\": r\n  - env-validator: field \"B\": s\n" := by
  have h := validationErrors_render_format [⟨"A", "r"⟩, ⟨"B", "s"⟩] (by decide)
  rw [h]
  decide

end EnvValidator

namespace EnvValidator

/-- The state-threaded loop returns the declaration list and the input map
exactly as received, and computes the same outcome as the plain loop. -/
theorem runFieldsSt_spec (c : Bool) :
    ∀ (fields : List Field) (env : EnvMap) (vs : ValuesMap) (es : List ValidationError),
      runFieldsSt c fields env vs es = ((fields, env), runFields c env fields vs es) := by
  intro fields
  induction fields with
  | nil =>
    intro env vs es
    rfl
  | cons f rest ih =>
    intro env vs es
    cases c with
    | true => simp [runFieldsSt, runFields]
    | false =>
      cases hv : evalField f env with
      | error e => simp [runFieldsSt, runFields, hv, ih]
      | ok v => simp [runFieldsSt, runFields, hv, ih]

/-- The state-threaded `Schema` loop returns the declaration list as
received, and the same descriptors as `Schema`. -/
theorem schemaSt_spec : ∀ fields : List Field, SchemaSt fields = (fields, Schema fields) := by
  intro fields
  induction fields with
  | nil => rfl
  | cons f rest ih => simp [SchemaSt, Schema, ih]

/-- C9: `ValidateMap` and `Schema` leave the declaration list and the
caller's input map unchanged (each call builds only its own fresh values map
and error slice), their outcomes agree with the plain functions, and a
repeated call against the state left by a first call returns the same
outcome — calls are independent. -/
theorem validateMap_schema_frame (c : Bool) (fields : List Field) (env : EnvMap) :
    (ValidateMapSt c fields env).1 = (fields, env)
    ∧ (ValidateMapSt c fields env).2 = ValidateMap c fields env
    ∧ (SchemaSt fields).1 = fields
    ∧ (SchemaSt fields).2 = Schema fields
    ∧ (ValidateMapSt c (ValidateMapSt c fields env).1.1 (ValidateMapSt c fields env).1.2).2 =
        (ValidateMapSt c fields env).2 := by
  have hrun := runFieldsSt_spec c fields env [] []
  have hvm : ValidateMapSt c fields env = ((fields, env), ValidateMap c fields env) := by
    rw [ValidateMapSt, hrun, ValidateMap]
    cases hr : runFields c env fields [] [] with
    | none => rfl
    | some p => rfl
  refine ⟨by rw [hvm], by rw [hvm], ?_, ?_, ?_⟩
  · rw [schemaSt_spec]
  · rw [schemaSt_spec]
  · rw [hvm]
    exact congrArg Prod.snd hvm

end EnvValidator

namespace EnvValidator

/-- C10 counterexample: a field of kind `string`, not required, empty
default, whose key is absent — but with allowed-values `["x"]` — does NOT
succeed with the empty string as the claim states for every such string
field: the allowed-values check rejects the substituted empty default before
any coercion runs, and the recorded failure is the allowed-values reason, not
a coercion reason. -/
theorem missing_optional_with_allowed_values_fails :
    ValidateMap false [⟨"K", "string", false, "", "", some ["x"]⟩] [] =
      (none, some (GoErr.batch [⟨"K", "value \"\" is not one of the allowed values: x"⟩])) := by
  decide

/-- C10 as amended: for every field that is not required, has an empty
default, has NO allowed-values restriction, and whose key is absent from the
input map or maps to the empty string, the empty string is substituted as the
raw value; for kinds integer, float, boolean, url and duration it fails that
kind's parsing and the kind-specific coercion failure is recorded, while kind
string succeeds and stores the empty string. -/
theorem missing_optional_empty_default_coercion (f : Field) (env : EnvMap)
    (hreq : f.Required = false) (hdef : f.Default = "")
    (hallow : f.AllowedValues.getD [] = [])
    (hmiss : (EnvMap.get env f.Key).getD "" = "") :
    (f.Kind = "integer" →
        evalField f env = .error ⟨f.Key, "cannot parse \"\" as an integer"⟩)
    ∧ (f.Kind = "float" →
        evalField f env = .error ⟨f.Key, "cannot parse \"\" as a float"⟩)
    ∧ (f.Kind = "boolean" →
        evalField f env = .error ⟨f.Key,
          "cannot parse \"\" as a boolean; accepted values are true, false, 1, 0, yes, no"⟩)
    ∧ (f.Kind = "url" →
        evalField f env = .error ⟨f.Key,
          "cannot parse \"\" as an absolute URL with scheme and host"⟩)
    ∧ (f.Kind = "duration" →
        evalField f env = .error ⟨f.Key,
          "cannot parse \"\" as a duration; use Go duration syntax such as 5s, 1m30s, or 2h"⟩)
    ∧ (f.Kind = "string" → evalField f env = .ok (.str "")) := by
  have hred : evalField f env = parseValue f.Key (if f.Kind = "" then "string" else f.Kind) "" := by
    simp [evalField, hmiss, hreq, hdef, afterRaw, Field.allowedList, hallow]
  have hq0 : goQuote "" = "\"\"" := by decide
  have hint : parseInt64 (trimSpace "") = none := by decide
  have hfl : validFloat (trimSpace "") = false := by decide
  have hlow : lowerStr (trimSpace "") = "" := by decide
  have hurl : parseRequestURI (trimSpace "") = none := by decide
  have hdur : parseDuration (trimSpace "") = none := by decide
  refine ⟨?_, ?_, ?_, ?_, ?_, ?_⟩
  · intro hk
    rw [hred, hk]
    simp [parseValue, hint, hq0]
  · intro hk
    rw [hred, hk]
    simp [parseValue, hfl, hq0]
  · intro hk
    rw [hred, hk]
    simp [parseValue, hlow, hq0]
  · intro hk
    rw [hred, hk]
    simp [parseValue, hurl, hq0]
  · intro hk
    rw [hred, hk]
    simp [parseValue, hdur, hq0]
  · intro hk
    rw [hred, hk]
    simp [parseValue]

/-- Witness for the amended C10: an optional integer field with empty default
and absent key records the integer coercion failure for the empty string. -/
theorem missing_optional_empty_default_coercion_witness :
    evalField ⟨"K", "integer", false, "", "", none⟩ [] =
      .error ⟨"K", "cannot parse \"\" as an integer"⟩ :=
  (missing_optional_empty_default_coercion ⟨"K", "integer", false, "", "", none⟩ []
    rfl rfl rfl rfl).1 rfl

end EnvValidator
